import Mathlib

/-!
Verification of the RedP2P central coordinator against its specification.

The definitions below are a shallow embedding of the Python sources under
`src/central-server/`: SQLAlchemy rows become Lean structures, database
tables become lists of rows, and each service method becomes a pure
function from its inputs and the table state to its result and the new
table state.  Timestamps (`datetime.utcnow()`) are abstract `Nat` ticks
passed in as a `now` parameter; byte sizes are `Nat` (they are byte
counts).  Each definition names the source function it embeds.
-/

namespace RedP2P

/-- Row of the `peers` table (models/database.py, class Peer).  The
synthetic `id` column and `created_at`/`updated_at` are omitted: no claim
mentions them. -/
structure PeerRow where
  peer_id : String
  host : String
  port : Nat
  grpc_port : Nat
  is_online : Bool
  last_seen : Nat
deriving DecidableEq

/-- Row of the `files` table (models/database.py, class File).  The column
`source` has DB default value "indexed" (line 40); a `File(...)`
constructor call that omits `source` produces a row with
`source = "indexed"`.  `size` is a plain Integer column: nothing
validates it, so negative values (from a hostile peer's file list or a
negative claimed upload size) are representable and persisted. -/
structure FileRow where
  filename : String
  file_hash : String
  size : Int
  peer_id : String
  is_available : Bool
  source : String
  last_modified : Nat
  created_at : Nat
  updated_at : Nat
deriving DecidableEq

/-- Row of the `transfer_logs` table (models/database.py, class
TransferLog).  `bytes_transferred` defaults to 0, `completed_at` and
`error_message` are nullable.  `bytes_transferred` and `total_bytes`
are plain Integer columns (database.py lines 63-64): no constraint
keeps them non-negative, and a negative claimed upload size is
persisted as a negative `total_bytes`. -/
structure TransferLogR where
  file_hash : String
  source_peer_id : String
  target_peer_id : String
  transfer_type : String
  status : String
  bytes_transferred : Int
  total_bytes : Int
  started_at : Nat
  completed_at : Option Nat
  error_message : Option String
deriving DecidableEq

/-- Full catalog state: the three persisted tables. -/
structure DbState where
  peers : List PeerRow
  files : List FileRow
  transfers : List TransferLogR
deriving DecidableEq

/-! ### Peer health probe (services/peer_manager.py) -/

/-- Outcome of the single HTTP GET issued by `PeerManager._ping_peer`:
either a response with a status code, or a transport error (timeout,
connection refused, or any other exception raised by the GET). -/
inductive ProbeOutcome where
  | response (statusCode : Nat)
  | transportError
deriving DecidableEq

/-- Embeds `PeerManager._ping_peer` (peer_manager.py lines 206-222): on a
response, online iff the status is 200; the `except` branch returns True
("Temporalmente, asumir que el peer está online si no podemos hacer
ping"), i.e. a transport error yields *online*. -/
def ping_peer (outcome : ProbeOutcome) : Bool :=
  match outcome with
  | .response statusCode => statusCode == 200
  | .transportError => true

/-- Embeds the probe-and-persist step of `PeerManager.get_peer_status`
(peer_manager.py lines 116-121): the ping result is written back to the
peer row (with a fresh `last_seen`) only when it disagrees with the stored
`is_online`. -/
def get_peer_status_update (p : PeerRow) (outcome : ProbeOutcome) (now : Nat) : PeerRow :=
  let is_online := ping_peer outcome
  if is_online != p.is_online then
    { p with is_online := is_online, last_seen := now }
  else
    p

/-- Sample registered peer used by concrete evaluations. -/
def peer1 : PeerRow :=
  { peer_id := "peer1", host := "localhost", port := 8001, grpc_port := 9001,
    is_online := true, last_seen := 0 }

/-- Sample offline peer used by concrete evaluations. -/
def peer2off : PeerRow :=
  { peer_id := "peer2", host := "localhost", port := 8002, grpc_port := 9002,
    is_online := false, last_seen := 0 }

/-- Claim C3: the claim states that any transport error of the health
probe marks the peer offline.  The code does the opposite: `_ping_peer`
returns True (online) on every transport error, so `get_peer_status`
keeps an unreachable online peer online and even flips an unreachable
*offline* peer back to online.  Only the 200-implies-online half of the
claim holds.  This theorem evaluates the embedded code at the failing
input (a probe that raises a transport error). -/
theorem ping_peer_transport_error_marks_online :
    ping_peer .transportError = true
    ∧ (get_peer_status_update peer1 .transportError 9).is_online = true
    ∧ (get_peer_status_update peer2off .transportError 9).is_online = true
    ∧ ping_peer (.response 200) = true
    ∧ ping_peer (.response 503) = false := by
  decide

/-! ### Indexing an uploaded file (services/transfer_manager.py) -/

/-- Request body of an upload (models/schemas.py, class UploadRequest).
`file_size` is a pydantic `int` with no validator, and no validation
runs anywhere on this path, so a negative `file_size` posted to
`POST /api/transfers/upload` (rest_api.py lines 306-313) reaches
`initiate_upload` unchanged. -/
structure UploadRequest where
  filename : String
  file_size : Int
  file_hash : String
  uploading_peer_id : String
deriving DecidableEq

/-- Helper shared by the indexer and the transfer manager: SQLAlchemy
`query(File).filter(file_hash == h, peer_id == p).first()` followed by an
in-place update of the found row.  Returns `some rows2` when a row
matched (`rows2` is the table with the first matching row replaced by
`f row`), `none` when no row matched. -/
def updateFirstFile (p h : String) (f : FileRow → FileRow) : List FileRow → Option (List FileRow)
  | [] => none
  | r :: rs =>
    if r.file_hash == h && r.peer_id == p then
      some (f r :: rs)
    else
      (updateFirstFile p h f rs).map (fun rs2 => r :: rs2)

/-- Field update performed by `TransferManager._index_file_in_peer` on an
existing row (transfer_manager.py lines 534-541).  `source` is not
changed. -/
def uploadIndexUpdate (req : UploadRequest) (now : Nat) (r : FileRow) : FileRow :=
  { r with filename := req.filename, size := req.file_size, is_available := true,
           last_modified := now, updated_at := now }

/-- Embeds `TransferManager._index_file_in_peer` (transfer_manager.py
lines 523-558): look up the row by `(file_hash, peer_id)`; update it if
present, otherwise insert a new `File`.  The `File(...)` call on lines
544-551 passes no `source` argument, so the inserted row carries the
column default `source = "indexed"` (database.py line 40). -/
def index_file_in_peer (p : String) (req : UploadRequest) (now : Nat)
    (files : List FileRow) : List FileRow :=
  match updateFirstFile p req.file_hash (uploadIndexUpdate req now) files with
  | some files2 => files2
  | none =>
      files ++ [{ filename := req.filename, file_hash := req.file_hash,
                  size := req.file_size, peer_id := p, is_available := true,
                  source := "indexed", last_modified := now, created_at := now,
                  updated_at := now }]

/-- Sample upload request used by concrete evaluations. -/
def uploadReqU : UploadRequest :=
  { filename := "u.txt", file_size := 42, file_hash := "aaa", uploading_peer_id := "peer1" }

/-- Claim C1: the claim states that the index-file-in-peer step records
the catalog row for a completed upload with `source = "upload"`.  The
code's `File(...)` constructor call omits `source`, so the row is created
with the column default `source = "indexed"`: evaluating
`_index_file_in_peer` on an upload that placed `u.txt` on `peer1` (no
prior row for that hash) yields one row whose `source` is "indexed", not
"upload".  Nothing in the repository ever writes `source = "upload"`. -/
theorem index_file_in_peer_creates_indexed_row :
    (index_file_in_peer "peer1" uploadReqU 3 []).map (fun r => r.source) = ["indexed"]
    ∧ (index_file_in_peer "peer1" uploadReqU 3 []).map (fun r => r.source) ≠ ["upload"] := by
  decide

/-! ### Reindexing a peer (services/file_indexer.py, index_peer_files) -/

/-- One entry of the peer's published file list, as fetched from
`GET http://peer/api/files` (file_indexer.py lines 61-64).  `size` is
taken from the peer's JSON unchecked, so it is an arbitrary integer. -/
structure PeerFileEntry where
  filename : String
  hash : String
  size : Int
  is_available : Bool
  last_modified : Nat
deriving DecidableEq

/-- Field update applied to an existing row with `source ≠ "upload"`
(file_indexer.py lines 75-79).  `source` and `created_at` are not
changed. -/
def indexedUpdate (e : PeerFileEntry) (now : Nat) (r : FileRow) : FileRow :=
  { r with filename := e.filename, size := e.size, is_available := e.is_available,
           last_modified := e.last_modified, updated_at := now }

/-- Row inserted for a fetched entry with no existing `(hash, peer_id)`
row (file_indexer.py lines 85-95): explicitly `source = "indexed"`. -/
def newIndexedFile (p : String) (now : Nat) (e : PeerFileEntry) : FileRow :=
  { filename := e.filename, file_hash := e.hash, size := e.size, peer_id := p,
    is_available := e.is_available, source := "indexed",
    last_modified := e.last_modified, created_at := now, updated_at := now }

/-- Per-entry reconcile step (file_indexer.py lines 61-101): locate the
row by `(hash, peer_id)`; if found, update it unless its
`source = "upload"` (line 74); if not found, insert a new indexed row.
The session has `autoflush=False`, so lookups never see rows added
earlier in the same pass: pending inserts are accumulated separately in
`news`. -/
def reconcileEntries (p : String) (now : Nat) :
    List PeerFileEntry → List FileRow → List FileRow → List FileRow × List FileRow
  | [], rows, news => (rows, news)
  | e :: es, rows, news =>
    match updateFirstFile p e.hash
        (fun r => if r.source == "upload" then r else indexedUpdate e now r) rows with
    | some rows2 => reconcileEntries p now es rows2 news
    | none => reconcileEntries p now es rows (news ++ [newIndexedFile p now e])

/-- Mark-unavailable pass (file_indexer.py lines 103-109): every
pre-existing row of peer `p` whose hash was not fetched is flipped to
`is_available = false` (its other fields kept); rows of other peers and
rows whose hash was fetched are untouched.  The loop runs over
`existing_files`, the rows loaded before the inserts, so it never touches
the newly inserted rows. -/
def markMissingUnavailable (p : String) (hashes : List String) (now : Nat)
    (rows : List FileRow) : List FileRow :=
  rows.map (fun r =>
    if r.peer_id == p && !(hashes.contains r.file_hash) then
      { r with is_available := false, updated_at := now }
    else r)

/-- Embeds the reconcile transaction of `CentralFileIndexer.index_peer_files`
(file_indexer.py lines 54-111) on the `files` table: per-entry
update-or-insert, then the mark-unavailable pass over the pre-existing
rows, committed as one state. -/
def index_peer_files (p : String) (now : Nat) (entries : List PeerFileEntry)
    (rows : List FileRow) : List FileRow :=
  let st := reconcileEntries p now entries rows []
  markMissingUnavailable p (entries.map (fun e => e.hash)) now st.1 ++ st.2

/-- A row that `updateFirstFile` either does not match or maps to itself
stays in the table. -/
theorem mem_of_updateFirstFile (p h : String) (f : FileRow → FileRow) (r : FileRow)
    (hfix : (r.file_hash == h && r.peer_id == p) = false ∨ f r = r) :
    ∀ rows rows2, updateFirstFile p h f rows = some rows2 → r ∈ rows → r ∈ rows2 := by
  intro rows
  induction rows with
  | nil => intro rows2 hup; simp [updateFirstFile] at hup
  | cons x xs ih =>
    intro rows2 hup hmem
    by_cases hc : (x.file_hash == h && x.peer_id == p) = true
    · simp only [updateFirstFile, hc, if_true, Option.some.injEq] at hup
      subst hup
      rcases List.mem_cons.mp hmem with hx | hx
      · subst hx
        rcases hfix with hfalse | hfr
        · rw [hc] at hfalse; exact absurd hfalse (by simp)
        · rw [hfr]; exact List.mem_cons_self _ _
      · exact List.mem_cons_of_mem _ hx
    · rw [Bool.not_eq_true] at hc
      simp only [updateFirstFile, hc, Bool.false_eq_true, if_false,
        Option.map_eq_some'] at hup
      obtain ⟨ys, hys, hrows2⟩ := hup
      subst hrows2
      rcases List.mem_cons.mp hmem with hx | hx
      · subst hx; exact List.mem_cons_self _ _
      · exact List.mem_cons_of_mem _ (ih ys hys hx)

/-- A row that no fetched entry matches, or that every matching entry
maps to itself, survives the whole per-entry reconcile pass unchanged. -/
theorem mem_reconcileEntries (p : String) (now : Nat) (r : FileRow) :
    ∀ (entries : List PeerFileEntry),
    (∀ e ∈ entries, (r.file_hash == e.hash && r.peer_id == p) = false
      ∨ (if r.source == "upload" then r else indexedUpdate e now r) = r) →
    ∀ rows news, r ∈ rows → r ∈ (reconcileEntries p now entries rows news).1 := by
  intro entries
  induction entries with
  | nil => intro _ rows news hmem; simpa [reconcileEntries] using hmem
  | cons e es ih =>
    intro hent rows news hmem
    have hent_e := hent e (List.mem_cons_self _ _)
    have hent_es : ∀ x ∈ es, (r.file_hash == x.hash && r.peer_id == p) = false
        ∨ (if r.source == "upload" then r else indexedUpdate x now r) = r :=
      fun x hx => hent x (List.mem_cons_of_mem _ hx)
    rw [reconcileEntries]
    cases hup : updateFirstFile p e.hash
        (fun r => if r.source == "upload" then r else indexedUpdate e now r) rows with
    | none => exact ih hent_es rows _ hmem
    | some rows2 =>
        exact ih hent_es rows2 news
          (mem_of_updateFirstFile p e.hash _ r hent_e rows rows2 hup hmem)

/-- A row whose hash was fetched (or that belongs to another peer) passes
the mark-unavailable pass unchanged. -/
theorem mem_markMissingUnavailable_kept (p : String) (hashes : List String) (now : Nat)
    (rows : List FileRow) (r : FileRow) (hmem : r ∈ rows)
    (hkeep : (r.peer_id == p && !(hashes.contains r.file_hash)) = false) :
    r ∈ markMissingUnavailable p hashes now rows := by
  unfold markMissingUnavailable
  exact List.mem_map.mpr ⟨r, hmem, if_neg (by rw [hkeep]; decide)⟩

/-- A row of peer `p` whose hash was not fetched is flipped to
unavailable by the mark pass. -/
theorem mem_markMissingUnavailable_marked (p : String) (hashes : List String) (now : Nat)
    (rows : List FileRow) (r : FileRow) (hmem : r ∈ rows)
    (hmark : (r.peer_id == p && !(hashes.contains r.file_hash)) = true) :
    { r with is_available := false, updated_at := now } ∈
      markMissingUnavailable p hashes now rows := by
  unfold markMissingUnavailable
  exact List.mem_map.mpr ⟨r, hmem, if_pos hmark⟩

/-- Claim C2: for every reindex of peer `p`, (a) every pre-existing row
with `source = "upload"` whose hash appears in the fetched list is left
untouched by the fetched entries (the identical row is still in the
table), and (b) every pre-existing row of `p`, of either provenance,
whose hash is absent from the fetched list is kept with
`is_available := false` (and a fresh `updated_at`) rather than deleted. -/
theorem reindex_preserves_uploads_and_marks_missing
    (p : String) (now : Nat) (entries : List PeerFileEntry) (rows : List FileRow)
    (r : FileRow) (hmem : r ∈ rows) :
    (r.source = "upload" → r.file_hash ∈ entries.map (fun e => e.hash) →
      r ∈ index_peer_files p now entries rows)
    ∧ (r.peer_id = p → r.file_hash ∉ entries.map (fun e => e.hash) →
      { r with is_available := false, updated_at := now } ∈
        index_peer_files p now entries rows) := by
  constructor
  · intro hup hin
    unfold index_peer_files
    apply List.mem_append_left
    apply mem_markMissingUnavailable_kept
    · apply mem_reconcileEntries p now r entries _ rows [] hmem
      intro e _
      right
      have : (r.source == "upload") = true := by simp [hup]
      simp [this]
    · have hc : (entries.map (fun e => e.hash)).contains r.file_hash = true := by
        simp only [List.contains_iff_exists_mem_beq]
        exact ⟨r.file_hash, hin, beq_self_eq_true _⟩
      rw [hc]
      simp
  · intro hpeer hout
    unfold index_peer_files
    apply List.mem_append_left
    apply mem_markMissingUnavailable_marked
    · apply mem_reconcileEntries p now r entries _ rows [] hmem
      intro e he
      left
      have : (r.file_hash == e.hash) = false := by
        rw [beq_eq_false_iff_ne]
        intro hcontra
        exact hout (hcontra ▸ List.mem_map_of_mem (fun e => e.hash) he)
      simp [this]
    · have hc : (entries.map (fun e => e.hash)).contains r.file_hash = false := by
        rw [Bool.eq_false_iff]
        intro hcontra
        rw [List.contains_iff_exists_mem_beq] at hcontra
        obtain ⟨h2, hh2, hbeq⟩ := hcontra
        refine hout ?_
        rw [beq_iff_eq] at hbeq
        rw [hbeq]
        exact hh2
      rw [hc]
      simp [hpeer]

/-- Sample pre-existing upload-provenance row on peer1. -/
def upRow : FileRow :=
  { filename := "u.txt", file_hash := "aaa", size := 42, peer_id := "peer1",
    is_available := true, source := "upload", last_modified := 1, created_at := 1,
    updated_at := 1 }

/-- Sample pre-existing indexed-provenance row on peer1. -/
def idxRow : FileRow :=
  { filename := "b.txt", file_hash := "bbb", size := 7, peer_id := "peer1",
    is_available := true, source := "indexed", last_modified := 1, created_at := 1,
    updated_at := 1 }

/-- Sample fetched entry matching `upRow`. -/
def entryA : PeerFileEntry :=
  { filename := "u.txt", hash := "aaa", size := 42, is_available := true,
    last_modified := 2 }

/-- Witness for claim C2: with catalog `[upRow, idxRow]` and a fetch that
reports only `upRow`'s hash, the upload row survives untouched and the
indexed row is kept but marked unavailable. -/
theorem reindex_preserves_uploads_and_marks_missing_witness :
    upRow ∈ index_peer_files "peer1" 5 [entryA] [upRow, idxRow]
    ∧ { idxRow with is_available := false, updated_at := 5 } ∈
        index_peer_files "peer1" 5 [entryA] [upRow, idxRow] :=
  ⟨(reindex_preserves_uploads_and_marks_missing "peer1" 5 [entryA] [upRow, idxRow]
      upRow (by decide)).1 rfl (by decide),
   (reindex_preserves_uploads_and_marks_missing "peer1" 5 [entryA] [upRow, idxRow]
      idxRow (by decide)).2 rfl (by decide)⟩

/-! ### Transfer initiation (services/transfer_manager.py) -/

/-- Request body of a download (models/schemas.py, class DownloadRequest). -/
structure DownloadRequest where
  file_hash : String
  requesting_peer_id : String
deriving DecidableEq

/-- Result of `TransferManager.initiate_download`.  `fileNotFound` is the
`success=False` response "Archivo no encontrado en el índice";
`peerUnavailable` is the `success=False` response
"Peer fuente ... no está disponible".  The success response also carries
a `FileInfo` and a `download_url`; those are response payload derived
from the found row and are not separate state, so the embedding carries
the created TransferLog row. -/
inductive DownloadOutcome where
  | fileNotFound
  | peerUnavailable (peer_id : String)
  | ok (log : TransferLogR)
deriving DecidableEq

/-- Embeds `TransferManager.initiate_download` (transfer_manager.py lines
30-116): resolve the first File row by hash (fail before any write);
resolve the source peer and require it online (fail before any write);
otherwise insert a TransferLog with `transfer_type = "download"`,
`total_bytes = file.size`, committed first as "pending" and then as
"initiated" (the two commits are collapsed to the final committed
state). -/
def initiate_download (req : DownloadRequest) (now : Nat) (db : DbState) :
    DownloadOutcome × DbState :=
  match db.files.find? (fun f => f.file_hash == req.file_hash) with
  | none => (.fileNotFound, db)
  | some file =>
    match db.peers.find? (fun q => q.peer_id == file.peer_id) with
    | none => (.peerUnavailable file.peer_id, db)
    | some sourcePeer =>
      if sourcePeer.is_online then
        let log : TransferLogR :=
          { file_hash := req.file_hash, source_peer_id := file.peer_id,
            target_peer_id := req.requesting_peer_id, transfer_type := "download",
            status := "initiated", bytes_transferred := 0, total_bytes := file.size,
            started_at := now, completed_at := none, error_message := none }
        (.ok log, { db with transfers := db.transfers ++ [log] })
      else
        (.peerUnavailable file.peer_id, db)

/-- Claim C5: `initiate_download` fails with FileNotFound when no File
row has the requested hash and with PeerUnavailable when the owning peer
is absent or offline, in both cases leaving the catalog state unchanged
(no TransferLog row created); otherwise it appends exactly one
TransferLog with `transfer_type = "download"` and
`total_bytes = file.size` that reaches status "initiated". -/
theorem initiate_download_cases (req : DownloadRequest) (now : Nat) (db : DbState) :
    (db.files.find? (fun f => f.file_hash == req.file_hash) = none →
      (initiate_download req now db).1 = .fileNotFound
      ∧ (initiate_download req now db).2 = db)
    ∧ (∀ file, db.files.find? (fun f => f.file_hash == req.file_hash) = some file →
        (db.peers.find? (fun q => q.peer_id == file.peer_id) = none
          ∨ ∃ sp, db.peers.find? (fun q => q.peer_id == file.peer_id) = some sp
              ∧ sp.is_online = false) →
        (initiate_download req now db).1 = .peerUnavailable file.peer_id
        ∧ (initiate_download req now db).2 = db)
    ∧ (∀ file sp, db.files.find? (fun f => f.file_hash == req.file_hash) = some file →
        db.peers.find? (fun q => q.peer_id == file.peer_id) = some sp →
        sp.is_online = true →
        ∃ log, (initiate_download req now db).1 = .ok log
          ∧ log.transfer_type = "download"
          ∧ log.total_bytes = file.size
          ∧ log.status = "initiated"
          ∧ (initiate_download req now db).2.transfers = db.transfers ++ [log]
          ∧ (initiate_download req now db).2.files = db.files
          ∧ (initiate_download req now db).2.peers = db.peers) := by
  refine ⟨?_, ?_, ?_⟩
  · intro hnone
    simp [initiate_download, hnone]
  · intro file hfile hpeer
    rcases hpeer with hnone | ⟨sp, hsp, hoff⟩
    · simp [initiate_download, hfile, hnone]
    · simp [initiate_download, hfile, hsp, hoff]
  · intro file sp hfile hsp hon
    refine ⟨{ file_hash := req.file_hash, source_peer_id := file.peer_id,
              target_peer_id := req.requesting_peer_id, transfer_type := "download",
              status := "initiated", bytes_transferred := 0, total_bytes := file.size,
              started_at := now, completed_at := none, error_message := none },
        ?_, rfl, rfl, rfl, ?_, ?_, ?_⟩ <;>
      simp [initiate_download, hfile, hsp, hon]

/-- Sample available file row on peer1 used by concrete evaluations. -/
def fileA : FileRow :=
  { filename := "a.txt", file_hash := "abc", size := 4, peer_id := "peer1",
    is_available := true, source := "indexed", last_modified := 1, created_at := 1,
    updated_at := 1 }

/-- Sample catalog with one online peer and one file. -/
def dbA : DbState :=
  { peers := [peer1], files := [fileA], transfers := [] }

/-- Witness for claim C5: on a catalog holding `fileA` on the online
`peer1`, requesting the hash "abc" creates a download TransferLog with
`total_bytes = 4` and status "initiated"; requesting the unknown hash
"zzz" yields FileNotFound and leaves the state unchanged. -/
theorem initiate_download_cases_witness :
    (∃ log, (initiate_download ⟨"abc", "peer2"⟩ 9 dbA).1 = .ok log
      ∧ log.transfer_type = "download" ∧ log.total_bytes = fileA.size
      ∧ log.status = "initiated"
      ∧ (initiate_download ⟨"abc", "peer2"⟩ 9 dbA).2.transfers = dbA.transfers ++ [log]
      ∧ (initiate_download ⟨"abc", "peer2"⟩ 9 dbA).2.files = dbA.files
      ∧ (initiate_download ⟨"abc", "peer2"⟩ 9 dbA).2.peers = dbA.peers)
    ∧ ((initiate_download ⟨"zzz", "peer2"⟩ 9 dbA).1 = .fileNotFound
      ∧ (initiate_download ⟨"zzz", "peer2"⟩ 9 dbA).2 = dbA) :=
  ⟨(initiate_download_cases ⟨"abc", "peer2"⟩ 9 dbA).2.2 fileA peer1 (by decide)
      (by decide) (by decide),
   (initiate_download_cases ⟨"zzz", "peer2"⟩ 9 dbA).1 (by decide)⟩

/-- Result of `TransferManager.initiate_upload`: the `success=False`
response "Peer destino ... no está disponible", or success with the
created TransferLog row. -/
inductive UploadOutcome where
  | peerUnavailable (peer_id : String)
  | ok (log : TransferLogR)
deriving DecidableEq

/-- Embeds `TransferManager.initiate_upload` (transfer_manager.py lines
118-187): the target peer is looked up by `uploading_peer_id` and must be
online; the TransferLog is created with
`source_peer_id = target_peer_id = uploading_peer_id` (lines 132-133,
"Auto-subida"), `transfer_type = "upload"`,
`total_bytes = file_size`, and is committed as "pending" then
"initiated" (collapsed to the final committed state).  The subsequent
byte placement runs as a background task. -/
def initiate_upload (req : UploadRequest) (now : Nat) (db : DbState) :
    UploadOutcome × DbState :=
  match db.peers.find? (fun q => q.peer_id == req.uploading_peer_id) with
  | none => (.peerUnavailable req.uploading_peer_id, db)
  | some target =>
    if target.is_online then
      let log : TransferLogR :=
        { file_hash := req.file_hash, source_peer_id := req.uploading_peer_id,
          target_peer_id := req.uploading_peer_id, transfer_type := "upload",
          status := "initiated", bytes_transferred := 0, total_bytes := req.file_size,
          started_at := now, completed_at := none, error_message := none }
      (.ok log, { db with transfers := db.transfers ++ [log] })
    else
      (.peerUnavailable req.uploading_peer_id, db)

/-! ### Upload endpoint (api/rest_api.py, upload_file) and validation
utilities (utils/file_validation.py) -/

/-- The multipart `file` field: a filename plus the received bytes (each
byte a value 0-255; no claim depends on the byte values themselves). -/
structure UploadedFile where
  filename : String
  content : List Nat
deriving DecidableEq

/-- The multipart form of `POST /api/transfers/upload-file`: both fields
may be absent. -/
structure UploadForm where
  file : Option UploadedFile
  target_peer : Option String
deriving DecidableEq

/-- The UploadRequest built by the endpoint (rest_api.py lines 334-339):
the claimed hash is the hard-coded literal "test_hash_123", the size is
the length of the received bytes, and the form's `target_peer` becomes
`uploading_peer_id`. -/
def buildUploadRequest (f : UploadedFile) (target_peer : String) : UploadRequest :=
  { filename := f.filename, file_hash := "test_hash_123",
    file_size := (f.content.length : Int), uploading_peer_id := target_peer }

/-- HTTP-level result of the `upload_file` endpoint: a 400 rejection
with a detail string, or a 200 response carrying the UploadResponse of
`initiate_upload`. -/
inductive EndpointResult where
  | badRequest (detail : String)
  | uploadResult (out : UploadOutcome)
deriving DecidableEq

/-- Embeds the `upload_file` endpoint (rest_api.py lines 315-350): 400
only when the `file` or `target_peer` form field is missing; otherwise
the request is handed straight to `initiate_upload`.  No validation
helper is invoked and no hash is recomputed. -/
def upload_file (form : UploadForm) (now : Nat) (db : DbState) :
    EndpointResult × DbState :=
  match form.file with
  | none => (.badRequest "No se proporciono archivo", db)
  | some f =>
    match form.target_peer with
    | none => (.badRequest "Debe especificar un peer destino", db)
    | some tp =>
      let res := initiate_upload (buildUploadRequest f tp) now db
      (.uploadResult res.1, res.2)

/-- Claim C10: every TransferLog created by `initiate_upload` has
`source_peer_id = target_peer_id`, both equal to the uploading peer's
id, and the endpoint maps the `target_peer` form field to
`uploading_peer_id`; an upload log never records a source peer distinct
from its target peer. -/
theorem upload_log_source_eq_target (req : UploadRequest) (now : Nat) (db : DbState)
    (log : TransferLogR) (h : (initiate_upload req now db).1 = .ok log) :
    log.source_peer_id = log.target_peer_id
    ∧ log.source_peer_id = req.uploading_peer_id
    ∧ log.transfer_type = "upload"
    ∧ ∀ (f : UploadedFile) (tp : String),
        (buildUploadRequest f tp).uploading_peer_id = tp := by
  unfold initiate_upload at h
  cases hfind : db.peers.find? (fun q => q.peer_id == req.uploading_peer_id) with
  | none => rw [hfind] at h; simp at h
  | some target =>
    rw [hfind] at h
    by_cases hon : target.is_online = true
    · simp only [hon, if_true, UploadOutcome.ok.injEq] at h
      subst h
      exact ⟨rfl, rfl, rfl, fun f tp => rfl⟩
    · rw [Bool.not_eq_true] at hon
      simp [hon] at h

/-- Witness for claim C10: uploading `u.txt` through peer1 produces a
log whose source and target peer are both "peer1". -/
theorem upload_log_source_eq_target_witness :
    ∃ log, (initiate_upload uploadReqU 9 dbA).1 = .ok log
      ∧ log.source_peer_id = log.target_peer_id
      ∧ log.source_peer_id = uploadReqU.uploading_peer_id :=
  ⟨{ file_hash := "aaa", source_peer_id := "peer1", target_peer_id := "peer1",
     transfer_type := "upload", status := "initiated", bytes_transferred := 0,
     total_bytes := 42, started_at := 9, completed_at := none, error_message := none },
   by decide,
   ((upload_log_source_eq_target uploadReqU 9 dbA _ (by decide)).1),
   ((upload_log_source_eq_target uploadReqU 9 dbA _ (by decide)).2.1)⟩

/-- The extension allow-list ALLOWED_EXTENSIONS
(file_validation.py lines 11-17). -/
def ALLOWED_EXTENSIONS : List String :=
  [".pdf", ".txt", ".doc", ".docx", ".xls", ".xlsx", ".ppt", ".pptx",
   ".jpg", ".jpeg", ".png", ".gif", ".bmp", ".svg",
   ".mp3", ".mp4", ".avi", ".mov", ".wav",
   ".zip", ".rar", ".7z", ".tar", ".gz",
   ".py", ".js", ".html", ".css", ".json", ".xml"]

/-- MAX_FILE_SIZE = 100 MiB (file_validation.py line 19). -/
def MAX_FILE_SIZE : Nat := 100 * 1024 * 1024

/-- MIN_FILE_SIZE = 1 byte (file_validation.py line 20). -/
def MIN_FILE_SIZE : Nat := 1

/-- Whether `needle` occurs at the head of `hay` (helper for Python's
`in` on strings). -/
def startsWithChars : List Char → List Char → Bool
  | [], _ => true
  | _ :: _, [] => false
  | a :: as, b :: bs => a == b && startsWithChars as bs

/-- Whether `needle` occurs anywhere in `hay` (Python `needle in hay`). -/
def containsChars (needle : List Char) : List Char → Bool
  | [] => needle.isEmpty
  | c :: cs => startsWithChars needle (c :: cs) || containsChars needle cs

/-- The dangerous substrings checked by `validate_filename`
(file_validation.py line 40). -/
def dangerousChars : List String :=
  ["..", "/", "\\", ":", "*", "?", "\"", "<", ">", "|"]

/-- Embeds `validate_filename` (file_validation.py lines 34-49): nonempty,
none of the dangerous substrings occur, and at most 255 characters. -/
def validate_filename (filename : String) : Bool :=
  if filename.data.length == 0 then false
  else if dangerousChars.any (fun d => containsChars d.data filename.data) then false
  else if filename.data.length > 255 then false
  else true

/-- Extension part of Python's `os.path.splitext` on a filename without
path separators: the suffix from the last dot, unless every character
before that dot is itself a dot (then the extension is empty). -/
def splitextExt (s : String) : String :=
  let rev := s.data.reverse
  let afterDot := rev.takeWhile (fun c => c != '.')
  if afterDot.length == rev.length then ""
  else
    let before := rev.drop (afterDot.length + 1)
    if before.all (fun c => c == '.') then ""
    else String.mk ('.' :: afterDot.reverse)

/-- Embeds `validate_file_extension` (file_validation.py lines 22-28):
the lower-cased extension must be in the allow-list. -/
def validate_file_extension (filename : String) : Bool :=
  if filename.data.length == 0 then false
  else ALLOWED_EXTENSIONS.contains (splitextExt (String.mk (filename.data.map Char.toLower)))

/-- Embeds `validate_file_size` (file_validation.py lines 30-32). -/
def validate_file_size (size : Nat) : Bool :=
  decide (MIN_FILE_SIZE ≤ size ∧ size ≤ MAX_FILE_SIZE)

/-- Embeds `validate_file_content` (file_validation.py lines 51-63):
rejects empty content and content outside the size bounds. -/
def validate_file_content (content : List Nat) : Bool :=
  if content.isEmpty then false
  else if content.length > MAX_FILE_SIZE then false
  else if content.length < MIN_FILE_SIZE then false
  else true

/-- Accept/reject decision of `validate_upload_file`
(file_validation.py lines 69-91): name, then extension, then content.
The SHA-256 digest computed on the accept path is not modelled; no claim
depends on the digest value, only on the fact that the upload endpoint
never performs this validation at all. -/
def validate_upload_file_ok (filename : String) (content : List Nat) : Bool :=
  validate_filename filename && validate_file_extension filename
    && validate_file_content content

/-- Form of the failing input for claim C4: an empty file named
`evil.exe`, targeting the online peer1. -/
def badUploadForm : UploadForm :=
  { file := some { filename := "evil.exe", content := [] }, target_peer := some "peer1" }

/-- Claim C4: the claim states that uploads through the coordinator are
rejected with 400 when the extension is outside the allow-list, the size
is outside [1 B, 100 MiB], or the recomputed SHA-256 differs from the
claimed hash.  The endpoint `upload_file` performs none of these checks:
`validate_upload_file` is never called (it has no caller anywhere in the
repository) and the claimed hash is replaced by the hard-coded literal
"test_hash_123".  Evaluating the embedded endpoint on an empty file named
`evil.exe` (disallowed extension and size 0, both of which the
repository's own validator rejects) yields an accepted upload, not a
400. -/
theorem upload_endpoint_skips_validation :
    validate_file_extension "evil.exe" = false
    ∧ validate_file_size 0 = false
    ∧ validate_file_content [] = false
    ∧ validate_upload_file_ok "evil.exe" [] = false
    ∧ (upload_file badUploadForm 7 dbA).1 =
        .uploadResult (.ok
          { file_hash := "test_hash_123", source_peer_id := "peer1",
            target_peer_id := "peer1", transfer_type := "upload",
            status := "initiated", bytes_transferred := 0, total_bytes := 0,
            started_at := 7, completed_at := none, error_message := none }) := by
  decide

/-! ### TransferLog lifecycle (services/transfer_manager.py, background
tasks `_monitor_download`, `_real_upload`, `_real_upload_with_file`) -/

/-- Synthetic progress tick of `_monitor_download` (transfer_manager.py
lines 195-208): for progress `k/4` (k = 1..4) the committed row gets
`bytes_transferred = int(total_bytes * progress)`; Python's `int()`
truncates toward zero, which is `Int.tdiv`.  The persisted status is
not changed by the tick. -/
def dbTick (k : Nat) (t : TransferLogR) : TransferLogR :=
  { t with bytes_transferred := Int.tdiv (t.total_bytes * (k : Int)) 4 }

/-- Progress commit of `_real_upload` / `_real_upload_with_file`
(transfer_manager.py lines 287-289 and 444-446): status "in_progress"
and `bytes_transferred = int(total_bytes * 0.1)`, truncated toward
zero.  (The float product `total_bytes * 0.1` can deviate from the
exact tenth by one ulp for very large totals; the exact rational
truncation is modelled, and no theorem depends on the difference.) -/
def uploadProgressStep (t : TransferLogR) : TransferLogR :=
  { t with status := "in_progress", bytes_transferred := Int.tdiv t.total_bytes 10 }

/-- Completion commit (transfer_manager.py lines 223-226, 333-336,
471-474): status "completed", `completed_at` set,
`bytes_transferred = total_bytes`. -/
def markCompleted (now : Nat) (t : TransferLogR) : TransferLogR :=
  { t with status := "completed", completed_at := some now,
           bytes_transferred := t.total_bytes }

/-- Failure commit (transfer_manager.py lines 246-249, 397-400, 507-510):
status "failed", `error_message` and `completed_at` set,
`bytes_transferred` untouched. -/
def markFailed (now : Nat) (msg : String) (t : TransferLogR) : TransferLogR :=
  { t with status := "failed", error_message := some msg,
           completed_at := some now }

/-- One database commit performed on a TransferLog row by the background
task driving it.  In the source each TransferLog is mutated only by its
single monitor/upload task, and that task stops writing once it has
committed a terminal status ("completed" or "failed") — the success path
returns and the `except` handler runs at most once — so every commit is
guarded by the row being non-terminal. -/
inductive TStep : TransferLogR → TransferLogR → Prop
  | tick (t : TransferLogR) (k : Nat) (hk1 : 1 ≤ k) (hk4 : k ≤ 4)
      (hs : t.status ≠ "completed" ∧ t.status ≠ "failed") : TStep t (dbTick k t)
  | uploadProg (t : TransferLogR)
      (hs : t.status ≠ "completed" ∧ t.status ≠ "failed") :
      TStep t (uploadProgressStep t)
  | complete (t : TransferLogR) (now : Nat)
      (hs : t.status ≠ "completed" ∧ t.status ≠ "failed") :
      TStep t (markCompleted now t)
  | failStep (t : TransferLogR) (now : Nat) (msg : String)
      (hs : t.status ≠ "completed" ∧ t.status ≠ "failed") :
      TStep t (markFailed now msg t)

/-- Reflexive-transitive closure of `TStep`: the states a TransferLog
row passes through after its creation. -/
inductive ReachableLog : TransferLogR → TransferLogR → Prop
  | refl (t : TransferLogR) : ReachableLog t t
  | step (t1 t2 t3 : TransferLogR) :
      ReachableLog t1 t2 → TStep t2 t3 → ReachableLog t1 t3

/-- The TransferLog invariant claimed by the spec (§8):
`0 ≤ bytes_transferred ≤ total_bytes`, and a completed row has
`bytes_transferred = total_bytes` and a non-null `completed_at`. -/
def TransferInv (t : TransferLogR) : Prop :=
  0 ≤ t.bytes_transferred
  ∧ t.bytes_transferred ≤ t.total_bytes
  ∧ (t.status = "completed" →
      t.bytes_transferred = t.total_bytes ∧ t.completed_at ≠ none)

/-- Every single lifecycle commit preserves the TransferLog invariant. -/
theorem tstep_preserves_inv (t1 t2 : TransferLogR)
    (hstep : TStep t1 t2) (hinv : TransferInv t1) : TransferInv t2 := by
  obtain ⟨hge, hle, hcomp⟩ := hinv
  have hT : (0 : Int) ≤ t1.total_bytes := le_trans hge hle
  cases hstep with
  | tick k hk1 hk4 hs =>
    have hnum : (0 : Int) ≤ t1.total_bytes * (k : Int) :=
      mul_nonneg hT (Int.natCast_nonneg k)
    have heq : Int.tdiv (t1.total_bytes * (k : Int)) 4
        = t1.total_bytes * (k : Int) / 4 :=
      Int.tdiv_eq_ediv hnum (by norm_num)
    refine ⟨?_, ?_, fun hc => absurd hc hs.1⟩
    · show (0 : Int) ≤ Int.tdiv (t1.total_bytes * (k : Int)) 4
      rw [heq]
      exact Int.ediv_nonneg hnum (by norm_num)
    · show Int.tdiv (t1.total_bytes * (k : Int)) 4 ≤ t1.total_bytes
      rw [heq]
      have hkle : ((k : Int)) ≤ 4 := by exact_mod_cast hk4
      have hmul : t1.total_bytes * (k : Int) ≤ t1.total_bytes * 4 :=
        mul_le_mul_of_nonneg_left hkle hT
      calc t1.total_bytes * (k : Int) / 4 ≤ t1.total_bytes * 4 / 4 :=
            Int.ediv_le_ediv (by norm_num) hmul
        _ = t1.total_bytes := Int.mul_ediv_cancel _ (by norm_num)
  | uploadProg hs =>
    have heq : Int.tdiv t1.total_bytes 10 = t1.total_bytes / 10 :=
      Int.tdiv_eq_ediv hT (by norm_num)
    refine ⟨?_, ?_, fun hc => by simp [uploadProgressStep] at hc⟩
    · show (0 : Int) ≤ Int.tdiv t1.total_bytes 10
      rw [heq]
      exact Int.ediv_nonneg hT (by norm_num)
    · show Int.tdiv t1.total_bytes 10 ≤ t1.total_bytes
      rw [heq]
      exact Int.ediv_le_self 10 hT
  | complete now hs =>
    exact ⟨hT, le_refl _, fun _ => ⟨rfl, by simp [markCompleted]⟩⟩
  | failStep now msg hs =>
    exact ⟨hge, hle, fun hc => by simp [markFailed] at hc⟩

/-- Upload request carrying a negative claimed size, as any client can
post to `POST /api/transfers/upload` (pydantic performs no range
check and no validation runs on this path). -/
def negUploadReq : UploadRequest :=
  { filename := "u.txt", file_size := -5, file_hash := "aaa",
    uploading_peer_id := "peer1" }

/-- Claim C7 counterexample: the claim asserts
`0 ≤ bytes_transferred ≤ total_bytes` at every lifecycle point of every
TransferLog, including initiation.  `initiate_upload` copies the
unvalidated claimed `file_size` into `total_bytes`
(transfer_manager.py lines 130-139), so posting `file_size = -5` for an
online peer persists a TransferLog with `total_bytes = -5` while
`bytes_transferred` takes its default 0 (database.py line 63), and
`bytes_transferred ≤ total_bytes` fails at initiation. -/
theorem negative_upload_size_violates_invariant :
    ∃ log, (initiate_upload negUploadReq 9 dbA).1 = .ok log
      ∧ log.bytes_transferred = 0
      ∧ log.total_bytes = -5
      ∧ ¬ (0 ≤ log.bytes_transferred ∧ log.bytes_transferred ≤ log.total_bytes) :=
  ⟨{ file_hash := "aaa", source_peer_id := "peer1", target_peer_id := "peer1",
     transfer_type := "upload", status := "initiated", bytes_transferred := 0,
     total_bytes := -5, started_at := 9, completed_at := none,
     error_message := none },
   by decide, by decide, by decide, by decide⟩

/-- Claim C7 (amended): for every TransferLog created by
`initiate_download` or `initiate_upload` *with a non-negative total*
(`0 ≤ total_bytes`, i.e. the recorded size is an actual byte count —
the counterexample shows an unvalidated negative claimed size violates
`bytes_transferred ≤ total_bytes` already at initiation),
`0 ≤ bytes_transferred ≤ total_bytes` holds at creation, every
lifecycle commit (progress tick, upload progress, completion, failure)
preserves it, and whenever the status is "completed" the row has
`bytes_transferred = total_bytes` and a non-null `completed_at`. -/
theorem transfer_log_invariant :
    (∀ (req : DownloadRequest) (now : Nat) (db : DbState) (log : TransferLogR),
      (initiate_download req now db).1 = .ok log → 0 ≤ log.total_bytes →
        TransferInv log)
    ∧ (∀ (req : UploadRequest) (now : Nat) (db : DbState) (log : TransferLogR),
      (initiate_upload req now db).1 = .ok log → 0 ≤ log.total_bytes →
        TransferInv log)
    ∧ (∀ t0 t : TransferLogR, TransferInv t0 → ReachableLog t0 t → TransferInv t) := by
  refine ⟨?_, ?_, ?_⟩
  · intro req now db log h htot
    cases hfile : db.files.find? (fun f => f.file_hash == req.file_hash) with
    | none => simp [initiate_download, hfile] at h
    | some file =>
      cases hpeer : db.peers.find? (fun q => q.peer_id == file.peer_id) with
      | none => simp [initiate_download, hfile, hpeer] at h
      | some sp =>
        by_cases hon : sp.is_online = true
        · simp only [initiate_download, hfile, hpeer, hon, if_true,
            DownloadOutcome.ok.injEq] at h
          subst h
          exact ⟨le_refl 0, htot, fun hc => by simp at hc⟩
        · rw [Bool.not_eq_true] at hon
          simp [initiate_download, hfile, hpeer, hon] at h
  · intro req now db log h htot
    unfold initiate_upload at h
    cases hfind : db.peers.find? (fun q => q.peer_id == req.uploading_peer_id) with
    | none => rw [hfind] at h; simp at h
    | some target =>
      rw [hfind] at h
      by_cases hon : target.is_online = true
      · simp only [hon, if_true, UploadOutcome.ok.injEq] at h
        subst h
        exact ⟨le_refl 0, htot, fun hc => by simp at hc⟩
      · rw [Bool.not_eq_true] at hon
        simp [hon] at h
  · intro t0 t hinv hreach
    induction hreach with
    | refl => exact hinv
    | step t2 t3 hr hstep ih => exact tstep_preserves_inv t2 t3 hstep ih

/-- Witness for claim C7: the download log created on `dbA` (whose file
has the genuine size 4) satisfies the invariant, and so does the state
reached after the 25% tick, the 50% tick and the completion commit. -/
theorem transfer_log_invariant_witness :
    TransferInv
      (markCompleted 20 (dbTick 2 (dbTick 1
        { file_hash := "abc", source_peer_id := "peer1", target_peer_id := "peer2",
          transfer_type := "download", status := "initiated", bytes_transferred := 0,
          total_bytes := 4, started_at := 9, completed_at := none,
          error_message := none }))) :=
  transfer_log_invariant.2.2 _ _
    (transfer_log_invariant.1 ⟨"abc", "peer2"⟩ 9 dbA _ (by decide) (by decide))
    (ReachableLog.step _ _ _
      (ReachableLog.step _ _ _
        (ReachableLog.step _ _ _ (ReachableLog.refl _)
          (TStep.tick _ 1 (by decide) (by decide) (by decide)))
        (TStep.tick _ 2 (by decide) (by decide) (by decide)))
      (TStep.complete _ 20 (by decide)))

/-! ### Search (services/file_indexer.py, search_files) -/

/-- Request body of a search (models/schemas.py, class SearchRequest):
every field optional; the size bounds are plain pydantic ints. -/
structure SearchRequest where
  filename : Option String
  file_hash : Option String
  min_size : Option Int
  max_size : Option Int
  peer_id : Option String
deriving DecidableEq

/-- Python truthiness gate for an optional string filter
(`if search_request.filename:` etc.): the filter is applied only when
the field is present and non-empty; otherwise every row passes. -/
def optStrFilter : Option String → (String → Bool) → Bool
  | none, _ => true
  | some s, cond => if s == "" then true else cond s

/-- Python truthiness gate for an optional integer filter
(`if search_request.min_size:` etc.): the filter is applied only when
the field is present and non-zero. -/
def optIntFilter : Option Int → (Int → Bool) → Bool
  | none, _ => true
  | some n, cond => if n == 0 then true else cond n

/-- The conjunctive row predicate built by `search_files`
(file_indexer.py lines 161-183): inner join with `peers`, then the
truthy filters in source order (`filename contains`, `file_hash ==`,
`size >= min_size`, `size <= max_size`, `peer_id ==`), then
`is_available == True`. -/
def search_matches (peers : List PeerRow) (req : SearchRequest) (f : FileRow) : Bool :=
  peers.any (fun q => q.peer_id == f.peer_id)
  && optStrFilter req.filename (fun s => containsChars s.data f.filename.data)
  && optStrFilter req.file_hash (fun h => f.file_hash == h)
  && optIntFilter req.min_size (fun n => decide (n ≤ f.size))
  && optIntFilter req.max_size (fun n => decide (f.size ≤ n))
  && optStrFilter req.peer_id (fun p => f.peer_id == p)
  && f.is_available

/-- The SearchResponse shape (models/schemas.py): `search_time` is the
wall-clock of the query and is not modelled. -/
structure SearchResponse where
  files : List FileRow
  total_found : Nat
  searched_peers : List String
deriving DecidableEq

/-- Embeds `CentralFileIndexer.search_files` (file_indexer.py lines
155-219).  The catalog query either returns the `files` rows or raises;
the `except` branch (lines 212-219) catches every exception and returns
`SearchResponse(files=[], total_found=0, ...)`, the same shape as a
successful empty result. -/
def search_files (req : SearchRequest) (peers : List PeerRow)
    (queryResult : Except String (List FileRow)) : SearchResponse :=
  match queryResult with
  | .error _ => { files := [], total_found := 0, searched_peers := [] }
  | .ok rows =>
    let res := rows.filter (search_matches peers req)
    { files := res, total_found := res.length,
      searched_peers := (res.map (fun f => f.peer_id)).dedup }

/-- Sample available row used as C6 counterexample material. -/
def fileB : FileRow :=
  { filename := "b.txt", file_hash := "bbb", size := 7, peer_id := "peer1",
    is_available := true, source := "indexed", last_modified := 1, created_at := 1,
    updated_at := 1 }

/-- Search request that specifies `file_hash = ""` and nothing else. -/
def emptyHashReq : SearchRequest :=
  { filename := none, file_hash := some "", min_size := none, max_size := none,
    peer_id := none }

/-- Claim C6 counterexample: the claim states that a search with
`file_hash = h` returns only rows whose `file_hash = h`.  Yet for
`h = ""` (and likewise for `min_size` or `max_size` equal to 0) the code
guards each filter with Python truthiness (`if search_request.file_hash:`),
so the falsy value "" disables the filter: searching a catalog holding
only `fileB` (hash "bbb") with `file_hash = ""` returns `fileB`, a row
whose hash differs from the specified value. -/
theorem search_empty_hash_returns_other_rows :
    (search_files emptyHashReq [peer1] (.ok [fileB])).files = [fileB]
    ∧ fileB.file_hash ≠ "" := by
  decide

/-- Claim C6 (amended): every row returned by a search satisfies every
*truthy* specified filter conjunctively (a specified filename, hash or
peer filter with a non-empty string value, and a specified size bound
with a non-zero value) and has `is_available = true`; in particular for
`h ≠ ""` a search with `file_hash = h` returns only rows whose
`file_hash = h` and `is_available = true`. -/
theorem search_results_match_truthy_filters (req : SearchRequest)
    (peers : List PeerRow) (rows : List FileRow) (f : FileRow)
    (hf : f ∈ (search_files req peers (.ok rows)).files) :
    f.is_available = true
    ∧ (∀ s, req.filename = some s → s ≠ "" →
        containsChars s.data f.filename.data = true)
    ∧ (∀ h, req.file_hash = some h → h ≠ "" → f.file_hash = h)
    ∧ (∀ n, req.min_size = some n → n ≠ 0 → n ≤ f.size)
    ∧ (∀ n, req.max_size = some n → n ≠ 0 → f.size ≤ n)
    ∧ (∀ p, req.peer_id = some p → p ≠ "" → f.peer_id = p) := by
  have hmatch : search_matches peers req f = true :=
    (List.mem_filter.mp hf).2
  unfold search_matches at hmatch
  simp only [Bool.and_eq_true] at hmatch
  obtain ⟨⟨⟨⟨⟨⟨-, hname⟩, hhash⟩, hmin⟩, hmax⟩, hpeer⟩, havail⟩ := hmatch
  refine ⟨havail, ?_, ?_, ?_, ?_, ?_⟩
  · intro s hs hne
    rw [hs] at hname
    simp only [optStrFilter] at hname
    rwa [if_neg (by simp [hne])] at hname
  · intro h hh hne
    rw [hh] at hhash
    simp only [optStrFilter] at hhash
    rw [if_neg (by simp [hne])] at hhash
    exact beq_iff_eq.mp hhash
  · intro n hn hne
    rw [hn] at hmin
    simp only [optIntFilter] at hmin
    rw [if_neg (by simp [hne])] at hmin
    exact of_decide_eq_true hmin
  · intro n hn hne
    rw [hn] at hmax
    simp only [optIntFilter] at hmax
    rw [if_neg (by simp [hne])] at hmax
    exact of_decide_eq_true hmax
  · intro p hp hne
    rw [hp] at hpeer
    simp only [optStrFilter] at hpeer
    rw [if_neg (by simp [hne])] at hpeer
    exact beq_iff_eq.mp hpeer

/-- Search request asking for hash "bbb" on peer "peer1". -/
def hashReqB : SearchRequest :=
  { filename := none, file_hash := some "bbb", min_size := some 1,
    max_size := some 10, peer_id := some "peer1" }

/-- Witness for the amended claim C6: `fileB` is returned for `hashReqB`
and indeed satisfies every truthy filter of that request. -/
theorem search_results_match_truthy_filters_witness :
    fileB ∈ (search_files hashReqB [peer1] (.ok [fileA, fileB])).files
    ∧ fileB.file_hash = "bbb" ∧ 1 ≤ fileB.size ∧ fileB.size ≤ 10
    ∧ fileB.peer_id = "peer1" ∧ fileB.is_available = true :=
  ⟨by decide,
   (search_results_match_truthy_filters hashReqB [peer1] [fileA, fileB] fileB
      (by decide)).2.2.1 "bbb" rfl (by decide),
   (search_results_match_truthy_filters hashReqB [peer1] [fileA, fileB] fileB
      (by decide)).2.2.2.1 1 rfl (by decide),
   (search_results_match_truthy_filters hashReqB [peer1] [fileA, fileB] fileB
      (by decide)).2.2.2.2.1 10 rfl (by decide),
   (search_results_match_truthy_filters hashReqB [peer1] [fileA, fileB] fileB
      (by decide)).2.2.2.2.2 "peer1" rfl (by decide),
   (search_results_match_truthy_filters hashReqB [peer1] [fileA, fileB] fileB
      (by decide)).1⟩

/-- Search request with every field unset. -/
def emptyReq : SearchRequest :=
  { filename := none, file_hash := none, min_size := none, max_size := none,
    peer_id := none }

/-- Claim C8 counterexample: the claim states that a failing catalog
query surfaces to the caller as an error and is never silently swallowed
into an apparently successful empty result.  The `except` branch of
`search_files` does exactly that swallowing: a failed query produces a
response identical to a genuinely successful search over an empty
catalog, so the caller cannot distinguish the failure. -/
theorem search_failure_indistinguishable_from_empty :
    search_files emptyReq [peer1] (.error "db down")
      = search_files emptyReq [peer1] (.ok []) := by
  decide

/-- Claim C8 (amended): when the underlying catalog query fails during a
search, the exception is caught and only logged, and the caller receives
an apparently successful empty SearchResponse
(`files = []`, `total_found = 0`). -/
theorem search_failure_returns_empty_success (req : SearchRequest)
    (peers : List PeerRow) (err : String) :
    search_files req peers (.error err)
      = { files := [], total_found := 0, searched_peers := [] } :=
  rfl

/-! ### Rate limiter (middleware/rate_limiter.py) -/

/-- Constructor parameters of class RateLimiter (rate_limiter.py
line 17): a request cap and a window length in seconds.  Request times
are integers (seconds); Python uses `time.time()` floats, but only the
ordering and differences of timestamps matter to the limiter. -/
structure LimiterCfg where
  max_requests : Nat
  window_seconds : Int
deriving DecidableEq

/-- The global limiter instance (rate_limiter.py line 62):
`RateLimiter(max_requests=30, window_seconds=60)`. -/
def rate_limiter_global : LimiterCfg :=
  { max_requests := 30, window_seconds := 60 }

/-- The pruning loop of `is_allowed` (rate_limiter.py lines 29-31):
`popleft` while the front timestamp is `≤ now - window_seconds`.  The
loop stops at the first front element that is young enough, exactly as
this recursion does. -/
def pruneOld (cutoff : Int) : List Int → List Int
  | [] => []
  | t :: rest => if t ≤ cutoff then pruneOld cutoff rest else t :: rest

/-- Embeds `RateLimiter.is_allowed` (rate_limiter.py lines 23-39): prune
old timestamps, reject when the deque already holds `max_requests`
entries, otherwise append the current time and admit.  Returns the
decision and the new deque. -/
def is_allowed (cfg : LimiterCfg) (now : Int) (q : List Int) : Bool × List Int :=
  if cfg.max_requests ≤ (pruneOld (now - cfg.window_seconds) q).length then
    (false, pruneOld (now - cfg.window_seconds) q)
  else
    (true, pruneOld (now - cfg.window_seconds) q ++ [now])

/-- Embeds `RateLimiter.get_reset_time` (rate_limiter.py lines 53-59):
the oldest stored timestamp plus the window, or `now` when the deque is
empty.  (This method does not prune.) -/
def get_reset_time (cfg : LimiterCfg) (now : Int) : List Int → Int
  | [] => now
  | t :: _ => t + cfg.window_seconds

/-- Embeds `RateLimiter.get_remaining_requests` (rate_limiter.py lines
41-51): prune, then report `max(0, max_requests - len)` (`Nat`
subtraction truncates at 0 exactly like the `max`).  Returns the count
and the pruned deque. -/
def get_remaining_requests (cfg : LimiterCfg) (now : Int) (q : List Int) : Nat × List Int :=
  (cfg.max_requests - (pruneOld (now - cfg.window_seconds) q).length,
   pruneOld (now - cfg.window_seconds) q)

/-- HTTP-level outcome of `rate_limit_middleware`: a 429 rejection with
the body fields `retry_after` and `remaining_requests`, or a passed
request with the `X-RateLimit-{Limit,Remaining,Reset}` header values. -/
inductive MiddlewareResult where
  | tooMany (statusCode : Nat) (retry_after : Int) (remaining : Nat)
  | passed (limitHeader : Nat) (remaining : Nat) (reset : Int)
deriving DecidableEq

/-- Embeds `rate_limit_middleware` (rate_limiter.py lines 64-94) for one
request of a single client at time `now` with stored deque `q`: when
`is_allowed` rejects, raise HTTP 429 with
`retry_after = int(reset_time - now)`; when it admits, pass and attach
the rate-limit headers. -/
def rate_limit_middleware (cfg : LimiterCfg) (now : Int) (q : List Int) :
    MiddlewareResult × List Int :=
  if (is_allowed cfg now q).1 then
    (.passed cfg.max_requests
      (get_remaining_requests cfg now (is_allowed cfg now q).2).1
      (get_reset_time cfg now (get_remaining_requests cfg now (is_allowed cfg now q).2).2),
     (get_remaining_requests cfg now (is_allowed cfg now q).2).2)
  else
    (.tooMany 429
      (get_reset_time cfg now (get_remaining_requests cfg now (is_allowed cfg now q).2).2 - now)
      (get_remaining_requests cfg now (is_allowed cfg now q).2).1,
     (get_remaining_requests cfg now (is_allowed cfg now q).2).2)

/-- Trace executor: feed a sequence of request times of one client
through `is_allowed`, starting from deque `q`; returns the list of
admitted times and the final deque. -/
def runLimiter (cfg : LimiterCfg) : List Int → List Int → List Int × List Int
  | [], q => ([], q)
  | now :: rest, q =>
    (if (is_allowed cfg now q).1 then
      now :: (runLimiter cfg rest (is_allowed cfg now q).2).1
    else
      (runLimiter cfg rest (is_allowed cfg now q).2).1,
     (runLimiter cfg rest (is_allowed cfg now q).2).2)

/-- On a sorted deque, the front-pruning loop removes exactly the
timestamps that are at or below the cutoff. -/
theorem pruneOld_eq_filter (c : Int) :
    ∀ (q : List Int), List.Sorted (· ≤ ·) q →
      pruneOld c q = q.filter (fun x => decide (c < x)) := by
  intro q
  induction q with
  | nil => intro _; rfl
  | cons t rest ih =>
    intro hq
    rw [List.sorted_cons] at hq
    obtain ⟨hall, hrest⟩ := hq
    by_cases h : t ≤ c
    · rw [pruneOld, if_pos h, ih hrest, List.filter_cons,
        if_neg (by simp; omega)]
    · rw [pruneOld, if_neg h, List.filter_cons, if_pos (by simp; omega)]
      rw [List.filter_eq_self.mpr]
      intro a ha
      have := hall a ha
      simp
      omega

/-- Any client that has some request admitted inside a time window also
has an admitted request that is the latest of that window; bounding each
request's own trailing window therefore bounds every window.  (`A` is
the list of admitted timestamps.) -/
theorem sliding_window_of_pointwise (w : Int) (maxReq : Nat) (A : List Int)
    (hbound : ∀ t ∈ A,
      A.countP (fun x => decide (t - w < x ∧ x ≤ t)) ≤ maxReq) :
    ∀ s : Int, A.countP (fun x => decide (s < x ∧ x ≤ s + w)) ≤ maxReq := by
  intro s
  by_cases hS : 0 < (A.filter (fun x => decide (s < x ∧ x ≤ s + w))).length
  · set S := A.filter (fun x => decide (s < x ∧ x ≤ s + w)) with hSdef
    set t := S.maximum_of_length_pos hS with htdef
    have htS : t ∈ S := List.maximum_of_length_pos_mem hS
    have htA : t ∈ A := (List.mem_filter.mp htS).1
    have htwin : s < t ∧ t ≤ s + w := of_decide_eq_true (List.mem_filter.mp htS).2
    calc A.countP (fun x => decide (s < x ∧ x ≤ s + w))
        ≤ A.countP (fun x => decide (t - w < x ∧ x ≤ t)) := by
          apply List.countP_mono_left
          intro x hx hpx
          have hp := of_decide_eq_true hpx
          have hxS : x ∈ S := List.mem_filter.mpr ⟨hx, hpx⟩
          have hxt : x ≤ t := List.le_maximum_of_length_pos_of_mem hxS hS
          exact decide_eq_true (by omega)
      _ ≤ maxReq := hbound t htA
  · rw [List.countP_eq_length_filter]
    omega

/-- Invariant run of the limiter: if `A` is the sorted list of already
admitted timestamps (all at or before `c`), each of them already
respects its own trailing window, and the stored deque is exactly the
admitted timestamps younger than `c - window`, then after processing any
sorted batch of further requests at or after `c`, every admitted
timestamp still respects its trailing window. -/
theorem runLimiter_pointwise (cfg : LimiterCfg) (hw : 0 < cfg.window_seconds) :
    ∀ (reqs A : List Int) (c : Int),
    List.Sorted (· ≤ ·) A →
    (∀ a ∈ A, a ≤ c) →
    List.Sorted (· ≤ ·) reqs →
    (∀ r ∈ reqs, c ≤ r) →
    (∀ t ∈ A, A.countP (fun x => decide (t - cfg.window_seconds < x ∧ x ≤ t))
        ≤ cfg.max_requests) →
    ∀ t ∈ A ++ (runLimiter cfg reqs
        (A.filter (fun x => decide (c - cfg.window_seconds < x)))).1,
      (A ++ (runLimiter cfg reqs
        (A.filter (fun x => decide (c - cfg.window_seconds < x)))).1).countP
          (fun x => decide (t - cfg.window_seconds < x ∧ x ≤ t))
        ≤ cfg.max_requests := by
  intro reqs
  induction reqs with
  | nil =>
    intro A c hA hAc _ _ hbound
    simpa [runLimiter] using hbound
  | cons now rest ih =>
    intro A c hA hAc hreq hcr hbound
    rw [List.sorted_cons] at hreq
    obtain ⟨hnr, hrest⟩ := hreq
    have hcnow : c ≤ now := hcr now (List.mem_cons_self _ _)
    have hqs : List.Sorted (· ≤ ·)
        (A.filter (fun x => decide (c - cfg.window_seconds < x))) :=
      List.Pairwise.sublist (List.filter_sublist _) hA
    have hprune : pruneOld (now - cfg.window_seconds)
        (A.filter (fun x => decide (c - cfg.window_seconds < x)))
        = A.filter (fun x => decide (now - cfg.window_seconds < x)) := by
      rw [pruneOld_eq_filter _ _ hqs, List.filter_filter]
      apply List.filter_congr
      intro x hx
      rw [← Bool.decide_and]
      apply decide_eq_decide.mpr
      constructor
      · intro hand; exact hand.1
      · intro hlt; exact ⟨hlt, by omega⟩
    by_cases hfull : cfg.max_requests ≤
        (A.filter (fun x => decide (now - cfg.window_seconds < x))).length
    · have ha : is_allowed cfg now
          (A.filter (fun x => decide (c - cfg.window_seconds < x)))
          = (false, A.filter (fun x => decide (now - cfg.window_seconds < x))) := by
        unfold is_allowed
        rw [hprune, if_pos hfull]
      have hrun : (runLimiter cfg (now :: rest)
            (A.filter (fun x => decide (c - cfg.window_seconds < x)))).1
          = (runLimiter cfg rest
            (A.filter (fun x => decide (now - cfg.window_seconds < x)))).1 := by
        rw [runLimiter, ha]
        simp
      rw [hrun]
      exact ih A now hA (fun a hamem => le_trans (hAc a hamem) hcnow) hrest hnr hbound
    · rw [not_le] at hfull
      have ha : is_allowed cfg now
          (A.filter (fun x => decide (c - cfg.window_seconds < x)))
          = (true, A.filter (fun x => decide (now - cfg.window_seconds < x)) ++ [now]) := by
        unfold is_allowed
        rw [hprune, if_neg (not_le.mpr hfull)]
      have hstate : A.filter (fun x => decide (now - cfg.window_seconds < x)) ++ [now]
          = (A ++ [now]).filter (fun x => decide (now - cfg.window_seconds < x)) := by
        rw [List.filter_append]
        congr 1
        rw [List.filter_cons, if_pos (by simp; omega)]
        rfl
      have hcount_eq : A.countP
            (fun x => decide (now - cfg.window_seconds < x ∧ x ≤ now))
          = (A.filter (fun x => decide (now - cfg.window_seconds < x))).length := by
        rw [List.countP_eq_length_filter]
        apply congrArg List.length
        apply List.filter_congr
        intro x hx
        have hxn : x ≤ now := le_trans (hAc x hx) hcnow
        apply decide_eq_decide.mpr
        constructor
        · intro hand; exact hand.1
        · intro hlt; exact ⟨hlt, hxn⟩
      have hbound2 : ∀ t ∈ A ++ [now],
          (A ++ [now]).countP
              (fun x => decide (t - cfg.window_seconds < x ∧ x ≤ t))
            ≤ cfg.max_requests := by
        have hcase_now : (A ++ [now]).countP
            (fun x => decide (now - cfg.window_seconds < x ∧ x ≤ now))
            ≤ cfg.max_requests := by
          rw [List.countP_append, hcount_eq, List.countP_cons, List.countP_nil,
            if_pos (decide_eq_true (by omega))]
          omega
        intro t ht
        rcases List.mem_append.mp ht with htA | htnow
        · by_cases hge : now ≤ t
          · have hteq : t = now := le_antisymm (le_trans (hAc t htA) hcnow) hge
            rw [hteq]
            exact hcase_now
          · rw [List.countP_append, List.countP_cons, List.countP_nil,
              if_neg (by simp; omega)]
            have := hbound t htA
            omega
        · rw [List.mem_singleton.mp htnow]
          exact hcase_now
      have hA2 : List.Sorted (· ≤ ·) (A ++ [now]) :=
        List.pairwise_append.mpr ⟨hA, List.pairwise_singleton _ _, by
          intro a haA b hb
          rw [List.mem_singleton.mp hb]
          exact le_trans (hAc a haA) hcnow⟩
      have hA2c : ∀ a ∈ A ++ [now], a ≤ now := by
        intro a ha2
        rcases List.mem_append.mp ha2 with haA | hanow
        · exact le_trans (hAc a haA) hcnow
        · rw [List.mem_singleton.mp hanow]
      have ihres := ih (A ++ [now]) now hA2 hA2c hrest hnr hbound2
      have hrun : (runLimiter cfg (now :: rest)
            (A.filter (fun x => decide (c - cfg.window_seconds < x)))).1
          = now :: (runLimiter cfg rest
            ((A ++ [now]).filter (fun x => decide (now - cfg.window_seconds < x)))).1 := by
        rw [runLimiter, ha]
        simp [hstate]
      rw [hrun, List.append_cons]
      exact ihres

/-- Claim C9: for one client, at most `max_requests` requests are
admitted within any sliding window of `window_seconds` (the global
limiter instance uses the default 30 requests per 60 s); and a request
arriving while the client's pruned deque already holds `max_requests`
admitted timestamps is rejected with status 429 and a body carrying a
numeric `retry_after`.  Request times must be fed in non-decreasing
order (a single real-time clock). -/
theorem rate_limiter_sliding_window (cfg : LimiterCfg) (reqs : List Int)
    (hw : 0 < cfg.window_seconds) (hsorted : List.Sorted (· ≤ ·) reqs) :
    (∀ s : Int, (runLimiter cfg reqs []).1.countP
        (fun x => decide (s < x ∧ x ≤ s + cfg.window_seconds)) ≤ cfg.max_requests)
    ∧ (∀ (now : Int) (q : List Int), (is_allowed cfg now q).1 = false →
        ∃ retry_after remaining st,
          rate_limit_middleware cfg now q = (.tooMany 429 retry_after remaining, st))
    ∧ rate_limiter_global.max_requests = 30
    ∧ rate_limiter_global.window_seconds = 60 := by
  refine ⟨?_, ?_, rfl, rfl⟩
  · apply sliding_window_of_pointwise
    cases reqs with
    | nil => intro t ht; simp [runLimiter] at ht
    | cons r0 rest =>
      have hfirst : ∀ r ∈ r0 :: rest, r0 ≤ r := by
        intro r hr
        rcases List.mem_cons.mp hr with h0 | hmem
        · rw [h0]
        · exact (List.sorted_cons.mp hsorted).1 r hmem
      have := runLimiter_pointwise cfg hw (r0 :: rest) [] r0 (List.Pairwise.nil)
        (by intro a ha; cases ha) hsorted hfirst (by intro t ht; cases ht)
      simpa using this
  · intro now q hfalse
    rw [rate_limit_middleware, if_neg (by rw [hfalse]; exact Bool.false_ne_true)]
    exact ⟨_, _, _, rfl⟩

/-- Witness for claim C9: with a cap of 2 per 10 s and requests at times
0, 1, 2, 3, at most 2 are admitted in the window (0, 10]; and a client
whose deque already holds the 2 admitted timestamps 1, 2 is rejected at
time 3 with a 429 carrying a `retry_after`. -/
theorem rate_limiter_sliding_window_witness :
    ((runLimiter ⟨2, 10⟩ [0, 1, 2, 3] []).1.countP
        (fun x => decide ((0 : Int) < x ∧ x ≤ 0 + (10 : Int))) ≤ 2)
    ∧ (∃ retry_after remaining st,
        rate_limit_middleware ⟨2, 10⟩ 3 [1, 2]
          = (.tooMany 429 retry_after remaining, st)) :=
  ⟨(rate_limiter_sliding_window ⟨2, 10⟩ [0, 1, 2, 3] (by decide) (by decide)).1 0,
   (rate_limiter_sliding_window ⟨2, 10⟩ [0, 1, 2, 3] (by decide) (by decide)).2.1
      3 [1, 2] (by decide)⟩

end RedP2P
